import Mathlib

/-!
Shallow embedding of `internal/os/filesystem/api.go` from csi-proxy.

The Go file is a thin adapter over OS primitives.  We embed it against two
explicit filesystem models:

* `FlatFS` — paths are opaque strings, each mapped to an optional entry
  (file / directory / symbolic link with a string target); an extra `fault`
  map injects lstat failures other than "not found".  This models the
  `os.Lstat` / `os.Readlink` layer used by `pathExists` and `IsMountPoint`,
  which never traverse path components themselves.
* `DirFS` — a finite association list from component lists to nodes,
  modelling the tree structure that `os.MkdirAll`, `os.Remove` and
  `os.RemoveAll` operate on.

The external process invocation in `pathValid` is modelled by an explicit
`Command` value (name, argv, environment) and an arbitrary runner function
`Command → ExecResult` standing for `exec.Cmd.CombinedOutput`.
-/

namespace CsiProxy

/-! ## Flat filesystem model: `os.Lstat`, `os.Readlink` -/

/-- The kind of directory entry an `Lstat` reports, as far as the Go code
inspects it: `stat.Mode()&os.ModeSymlink` and (via `Readlink`) the link
target. -/
inductive FEntry where
  | file
  | dir
  | symlink (target : String)
deriving DecidableEq

/-- A flat view of the filesystem: each opaque path string either has an
entry or not, and `fault` injects `os.Lstat` failures other than
"not found" (permission denied, device error, ...). -/
structure FlatFS where
  entry : String → Option FEntry
  fault : String → Option String

/-- The Go `error` values produced by this file's lstat-based functions. -/
inductive GoError where
  /-- the `os.Lstat` not-found error, recognised by `os.IsNotExist` -/
  | notExist
  /-- any other `os.Lstat` failure -/
  | osFault (msg : String)
  /-- the wrapped error `fmt.Errorf("readlink error: %v", err)` -/
  | readlinkWrap (msg : String)
deriving DecidableEq

/-- Models `os.IsNotExist`. -/
def isNotExist : GoError → Bool
  | GoError.notExist => true
  | _ => false

/-- Models `os.Lstat`: fails with an injected fault if one is present,
with the not-found error if the entry is absent, and otherwise reports the
entry without following symbolic links. -/
def lstat (fs : FlatFS) (p : String) : Except GoError FEntry :=
  match fs.fault p with
  | some m => Except.error (GoError.osFault m)
  | none =>
    match fs.entry p with
    | none => Except.error GoError.notExist
    | some e => Except.ok e

/-- Models `stat.Mode()&os.ModeSymlink != 0`. -/
def isSymlinkEntry : FEntry → Bool
  | FEntry.symlink _ => true
  | _ => false

/-- Models `os.Readlink`: returns the link target, an error otherwise. -/
def readlink (fs : FlatFS) (p : String) : Except String String :=
  match fs.entry p with
  | some (FEntry.symlink t) => Except.ok t
  | _ => Except.error "not a symlink"

/-- Embeds `pathExists` (api.go lines 34-43): `os.Lstat`; nil error means
`(true, nil)`; an `os.IsNotExist` error means `(false, nil)`; any other
error is propagated as `(false, err)`. -/
def pathExists (fs : FlatFS) (path : String) : Bool × Option GoError :=
  match lstat fs path with
  | Except.ok _ => (true, none)
  | Except.error e =>
    if isNotExist e then (false, none) else (false, some e)

/-- Embeds the method `PathExists` (api.go lines 45-47), a pass-through to
`pathExists`. -/
def PathExists (fs : FlatFS) (path : String) : Bool × Option GoError :=
  pathExists fs path

/-- Embeds `IsMountPoint` (api.go lines 91-114): `os.Lstat` the path,
propagating any lstat error; a non-symlink entry yields `(false, nil)`;
for a symlink, read the target (wrapping a readlink failure) and return
`pathExists(target)`. -/
def IsMountPoint (fs : FlatFS) (tgt : String) : Bool × Option GoError :=
  match lstat fs tgt with
  | Except.error e => (false, some e)
  | Except.ok stat =>
    if isSymlinkEntry stat then
      match readlink fs tgt with
      | Except.error m => (false, some (GoError.readlinkWrap ("readlink error: " ++ m)))
      | Except.ok target =>
        match pathExists fs target with
        | (ex, none) => (ex, none)
        | (_, some e) => (false, some e)
    else
      (false, none)

/-! ## External process model: `pathValid` -/

/-- A subprocess invocation as `exec.Command` builds it: executable name,
argument vector, and environment (a list of `KEY=value` strings, as in
Go's `cmd.Env`). -/
structure Command where
  name : String
  args : List String
  env : List String
deriving DecidableEq

/-- What `cmd.CombinedOutput()` yields: the combined output bytes, and
`failed = some msg` when it returned a non-nil error (failure to start or
a non-zero exit). -/
structure ExecResult where
  output : String
  failed : Option String

/-- Embeds the command construction of `pathValid` (api.go lines 50-51):
`exec.Command("powershell", "/c", backquote Test-Path $Env:remotepath
backquote)` with `cmd.Env = append(os.Environ(),
fmt.Sprintf("remotepath=%s", path))`.  `baseEnv` stands for
`os.Environ()`. -/
def pathValidCommand (baseEnv : List String) (path : String) : Command :=
  { name := "powershell"
    args := ["/c", "Test-Path $Env:remotepath"]
    env := baseEnv ++ ["remotepath=" ++ path] }

/-- Models Go's `strings.ToLower` (restricted to the ASCII range the
parsed tokens live in): lowercases each character. -/
def stringsToLower (s : String) : String :=
  String.mk (s.data.map Char.toLower)

/-- Models Go's `strings.HasPrefix`. -/
def stringsHasPrefix (s pre : String) : Bool :=
  pre.data.isPrefixOf s.data

/-- Embeds `pathValid` (api.go lines 49-58).  `run` stands for the OS
executing the constructed command and collecting its combined output.  A
non-nil `CombinedOutput` error yields
`fmt.Errorf("returned output: %s, error: %v", output, err)`; otherwise the
result is `strings.HasPrefix(strings.ToLower(output), "true")`. -/
def pathValid (run : Command → ExecResult) (baseEnv : List String)
    (path : String) : Bool × Option String :=
  let res := run (pathValidCommand baseEnv path)
  match res.failed with
  | some errMsg =>
    (false, some ("returned output: " ++ res.output ++ ", error: " ++ errMsg))
  | none => (stringsHasPrefix (stringsToLower res.output) "true", none)

/-- Embeds the method `PathValid` (api.go lines 64-66), a pass-through to
`pathValid`. -/
def PathValid (run : Command → ExecResult) (baseEnv : List String)
    (path : String) : Bool × Option String :=
  pathValid run baseEnv path

/-! ## Structured directory model: `Mkdir`, `Rmdir`

Paths are lists of components; the filesystem is a finite association list
from component lists to nodes, looked up first-match-first. -/

/-- A node of the directory tree, as far as `MkdirAll` / `Remove` /
`RemoveAll` distinguish them. -/
inductive Node where
  | file
  | dir
deriving DecidableEq

/-- A finite filesystem tree: association list from paths (component
lists) to nodes. -/
abbrev DirFS : Type := List (List String × Node)

/-- First-match lookup in the association list. -/
def lookupFS : DirFS → List String → Option Node
  | [], _ => none
  | (k, v) :: rest, p => if k = p then some v else lookupFS rest p

/-- The proper ancestors of a path, from the root `[]` up to but not
including the path itself. -/
def properInits : List String → List (List String)
  | [] => []
  | c :: cs => [] :: (properInits cs).map (fun q => c :: q)

/-- All ancestors of a path including the root `[]` and the path
itself. -/
def pathInits : List String → List (List String)
  | [] => [[]]
  | c :: cs => [] :: (pathInits cs).map (fun q => c :: q)

/-- Embeds `os.MkdirAll` (used by the method `Mkdir`, api.go lines 69-71):
if the path already exists as a directory, succeed without change; if it
exists as a file, fail; otherwise, provided no ancestor is a file, create
every missing ancestor (and the path itself) as a directory. -/
def Mkdir (fs : DirFS) (p : List String) : Except String DirFS :=
  match lookupFS fs p with
  | some Node.dir => Except.ok fs
  | some Node.file => Except.error "mkdir: not a directory"
  | none =>
    if (pathInits p).all (fun q => !(lookupFS fs q == some Node.file)) then
      Except.ok
        ((((pathInits p).filter (fun q => lookupFS fs q == none)).map
          (fun q => (q, Node.dir))) ++ fs)
    else
      Except.error "mkdir: ancestor is not a directory"

/-- Removes the association for one path (all occurrences). -/
def eraseFS (fs : DirFS) (p : List String) : DirFS :=
  List.filter (fun e => !(e.fst == p)) fs

/-- Whether the association list records any entry strictly below `p`. -/
def hasChildFS (fs : DirFS) (p : List String) : Bool :=
  List.any fs (fun e => p.isPrefixOf e.fst && !(e.fst == p))

/-- Embeds `os.Remove`: deletes a file or an empty directory; fails on a
missing path or a non-empty directory. -/
def removeFS (fs : DirFS) (p : List String) : Except String DirFS :=
  match lookupFS fs p with
  | none => Except.error "remove: no such file or directory"
  | some Node.file => Except.ok (eraseFS fs p)
  | some Node.dir =>
    if hasChildFS fs p then Except.error "remove: directory not empty"
    else Except.ok (eraseFS fs p)

/-- Embeds `os.RemoveAll`: deletes the path and everything below it;
succeeds even when the path is absent. -/
def removeAllFS (fs : DirFS) (p : List String) : Except String DirFS :=
  Except.ok (List.filter (fun e => !(p.isPrefixOf e.fst)) fs)

/-- Embeds the method `Rmdir` (api.go lines 74-79): `os.RemoveAll` when
`force`, else `os.Remove`. -/
def Rmdir (fs : DirFS) (p : List String) (force : Bool) : Except String DirFS :=
  if force then removeAllFS fs p else removeFS fs p

/-! ## Concrete fixtures used by witnesses and counterexamples -/

/-- The empty flat filesystem: no entries, no injected faults. -/
def flatNone : FlatFS :=
  { entry := fun _ => none, fault := fun _ => none }

/-- A small flat filesystem: a symlink to a directory, a dangling symlink,
a plain file, and a symlink whose target is itself a dangling symlink. -/
def flatDemo : FlatFS :=
  { entry := fun p =>
      if p = "link" then some (FEntry.symlink "tgt")
      else if p = "tgt" then some FEntry.dir
      else if p = "dang" then some (FEntry.symlink "gone")
      else if p = "plain" then some FEntry.file
      else if p = "l2" then some (FEntry.symlink "dang")
      else none
    fault := fun _ => none }

/-! ## C1, C2, C9, C10, C4: the lstat-based operations -/

/-- C1: for every path P that exists (lstat fault-free), `IsMountPoint(P)`
returns `(false, nil)` when P is not a symbolic link; when P is a symbolic
link (with a fault-free target path), it returns `(false, nil)` when the
link's target does not exist, and `(true, nil)` exactly when the target
exists. -/
theorem isMountPoint_exists_spec (fs : FlatFS) (p : String) (e : FEntry)
    (hf : fs.fault p = none) (he : fs.entry p = some e) :
    (isSymlinkEntry e = false → IsMountPoint fs p = (false, none)) ∧
    (∀ t, e = FEntry.symlink t → fs.fault t = none →
      ((fs.entry t = none → IsMountPoint fs p = (false, none)) ∧
       (IsMountPoint fs p = (true, none) ↔ (fs.entry t).isSome = true))) := by
  constructor
  · intro hs
    simp [IsMountPoint, lstat, hf, he, hs]
  · intro t ht hft
    subst ht
    have hread : readlink fs p = Except.ok t := by
      simp [readlink, he]
    constructor
    · intro hte
      simp [IsMountPoint, lstat, readlink, pathExists, isNotExist,
        isSymlinkEntry, hf, he, hft, hte]
    · cases het : fs.entry t with
      | none =>
        simp [IsMountPoint, lstat, readlink, pathExists, isNotExist,
          isSymlinkEntry, hf, he, hft, het]
      | some et =>
        simp [IsMountPoint, lstat, readlink, pathExists, isNotExist,
          isSymlinkEntry, hf, he, hft, het]

/-- Witness for C1: in `flatDemo`, "link" is a symlink to the existing
directory "tgt", and `IsMountPoint` reports a mount point. -/
theorem isMountPoint_exists_spec_witness :
    IsMountPoint flatDemo "link" = (true, none) :=
  (((isMountPoint_exists_spec flatDemo "link" (FEntry.symlink "tgt")
    rfl (by decide)).2 "tgt" rfl rfl).2).mpr (by decide)

/-- C2 as stated is false: on a path that does not exist, `IsMountPoint`
returns the non-nil lstat not-found error rather than a clean
`(false, nil)`. -/
theorem isMountPoint_missing_cex :
    IsMountPoint flatNone "/mnt/x" = (false, some GoError.notExist) ∧
    IsMountPoint flatNone "/mnt/x" ≠ (false, none) := by
  constructor
  · rfl
  · intro h
    simp [IsMountPoint, lstat, flatNone] at h

/-- C2 amended: for every path P that does not exist (and is fault-free),
`IsMountPoint(P)` returns `(false, err)` where `err` is the propagated
non-nil lstat not-found error; callers are expected to pre-check
existence. -/
theorem isMountPoint_missing_spec (fs : FlatFS) (p : String)
    (hf : fs.fault p = none) (he : fs.entry p = none) :
    IsMountPoint fs p = (false, some GoError.notExist) := by
  simp [IsMountPoint, lstat, hf, he]

/-- Witness for the amended C2 at the empty filesystem. -/
theorem isMountPoint_missing_spec_witness :
    IsMountPoint flatNone "/mnt/y" = (false, some GoError.notExist) :=
  isMountPoint_missing_spec flatNone "/mnt/y" rfl rfl

/-- C4: for every path P that does not exist, `PathExists(P)` returns
`(false, nil)`, never an error; and whenever `PathExists` does return an
error, that error is not a not-found error but an injected lstat fault. -/
theorem pathExists_missing_spec (fs : FlatFS) (p : String) :
    (fs.entry p = none → fs.fault p = none → PathExists fs p = (false, none)) ∧
    (∀ b e, PathExists fs p = (b, some e) →
      isNotExist e = false ∧ ∃ m, fs.fault p = some m ∧ e = GoError.osFault m) := by
  constructor
  · intro he hf
    simp [PathExists, pathExists, lstat, isNotExist, he, hf]
  · intro b e h
    cases hf : fs.fault p with
    | some m =>
      simp [PathExists, pathExists, lstat, isNotExist, hf] at h
      refine ⟨?_, m, rfl, h.2.symm⟩
      rw [← h.2]
      rfl
    | none =>
      cases he : fs.entry p with
      | none => simp [PathExists, pathExists, lstat, isNotExist, hf, he] at h
      | some et => simp [PathExists, pathExists, lstat, isNotExist, hf, he] at h

/-- Witness for C4: the empty filesystem has no entry at "q". -/
theorem pathExists_missing_spec_witness :
    PathExists flatNone "q" = (false, none) :=
  (pathExists_missing_spec flatNone "q").1 rfl rfl

/-- C9: `PathExists` does not follow symbolic links: any path holding a
symlink entry — including a dangling one — exists, because existence is
decided by lstat on the link entry itself. -/
theorem pathExists_symlink_spec (fs : FlatFS) (p t : String)
    (hf : fs.fault p = none) (he : fs.entry p = some (FEntry.symlink t)) :
    PathExists fs p = (true, none) := by
  simp [PathExists, pathExists, lstat, hf, he]

/-- Witness for C9: "dang" is a dangling symlink in `flatDemo`, yet
`PathExists` reports it as existing. -/
theorem pathExists_symlink_spec_witness :
    PathExists flatDemo "dang" = (true, none) :=
  pathExists_symlink_spec flatDemo "dang" "gone" rfl (by decide)

/-- C10: a symlink whose target is itself a dangling symlink is reported
as a mount point: the target's existence is checked with the same
non-following lstat-based test. -/
theorem isMountPoint_dangling_target_spec (fs : FlatFS) (p t u : String)
    (hfp : fs.fault p = none) (hep : fs.entry p = some (FEntry.symlink t))
    (hft : fs.fault t = none) (het : fs.entry t = some (FEntry.symlink u))
    (_hu : fs.entry u = none) :
    IsMountPoint fs p = (true, none) := by
  simp [IsMountPoint, lstat, readlink, pathExists, isNotExist,
    isSymlinkEntry, hfp, hep, hft, het]

/-- Witness for C10: in `flatDemo`, "l2" links to "dang", which is itself
a dangling symlink to the absent "gone". -/
theorem isMountPoint_dangling_target_spec_witness :
    IsMountPoint flatDemo "l2" = (true, none) :=
  isMountPoint_dangling_target_spec flatDemo "l2" "dang" "gone"
    rfl (by decide) rfl (by decide) (by decide)

/-! ## C3, C6, C7: the external path-resolution mechanism -/

/-- A runner whose mechanism succeeds, printing PowerShell's usual
`True` followed by a CRLF line ending. -/
def runTrueCRLF : Command → ExecResult :=
  fun _ => { output := "True\r\n", failed := none }

/-- A runner whose mechanism runs to successful completion but prints
output that carries no recognisable boolean token. -/
def runGibberish : Command → ExecResult :=
  fun _ => { output := "gibberish", failed := none }

/-- A runner whose mechanism fails (non-nil `CombinedOutput` error). -/
def runFail : Command → ExecResult :=
  fun _ => { output := "oops", failed := some "exit status 1" }

/-- C6: the command line handed to the external utility is a fixed
constant independent of the candidate path; the path influences only the
one appended environment variable. -/
theorem pathValidCommand_constant_spec (baseEnv : List String) (path : String) :
    (pathValidCommand baseEnv path).name = "powershell" ∧
    (pathValidCommand baseEnv path).args = ["/c", "Test-Path $Env:remotepath"] ∧
    (pathValidCommand baseEnv path).env = baseEnv ++ ["remotepath=" ++ path] :=
  ⟨rfl, rfl, rfl⟩

/-- C7: when the mechanism runs successfully, `pathValid` returns a nil
error and reports `true` exactly when the lowercased output begins with
the token "true"; two successful runs whose outputs agree after
lowercasing produce identical results. -/
theorem pathValid_parse_spec (run : Command → ExecResult)
    (baseEnv : List String) (path : String)
    (h : (run (pathValidCommand baseEnv path)).failed = none) :
    ((pathValid run baseEnv path).1 = true ↔
      stringsHasPrefix
        (stringsToLower (run (pathValidCommand baseEnv path)).output) "true" = true) ∧
    (pathValid run baseEnv path).2 = none ∧
    (∀ run₂ : Command → ExecResult,
      (run₂ (pathValidCommand baseEnv path)).failed = none →
      stringsToLower (run₂ (pathValidCommand baseEnv path)).output =
        stringsToLower (run (pathValidCommand baseEnv path)).output →
      pathValid run₂ baseEnv path = pathValid run baseEnv path) := by
  refine ⟨?_, ?_, ?_⟩
  · simp [pathValid, h]
  · simp [pathValid, h]
  · intro run₂ h₂ hout
    simp [pathValid, h, h₂, hout]

/-- Witness for C7: PowerShell-style `True` plus CRLF parses as `true`
with no error. -/
theorem pathValid_parse_spec_witness :
    (pathValid runTrueCRLF [] "p").1 = true ∧ (pathValid runTrueCRLF [] "p").2 = none :=
  ⟨((pathValid_parse_spec runTrueCRLF [] "p" rfl).1).mpr (by decide),
   (pathValid_parse_spec runTrueCRLF [] "p" rfl).2.1⟩

/-- C3 as stated is false: a mechanism that runs to successful completion
but emits unparseable output yields `(false, nil)` — no error — whereas
the claim requires a ValidationError for an unparseable result. -/
theorem pathValid_unparseable_cex :
    (runGibberish (pathValidCommand [] "p")).failed = none ∧
    pathValid runGibberish [] "p" = (false, none) :=
  ⟨rfl, by decide⟩

/-- C3 amended: `pathValid` returns an error exactly when the external
mechanism's combined-output call fails (regardless of output
parseability); the error always embeds the raw combined output; a
successful run — whatever its output — yields a nil error. -/
theorem pathValid_error_spec (run : Command → ExecResult)
    (baseEnv : List String) (path : String) :
    ((pathValid run baseEnv path).2 ≠ none ↔
      (run (pathValidCommand baseEnv path)).failed ≠ none) ∧
    (∀ m, (run (pathValidCommand baseEnv path)).failed = some m →
      pathValid run baseEnv path =
        (false, some ("returned output: " ++
          (run (pathValidCommand baseEnv path)).output ++ ", error: " ++ m))) ∧
    ((run (pathValidCommand baseEnv path)).failed = none →
      (pathValid run baseEnv path).2 = none) := by
  refine ⟨?_, ?_, ?_⟩
  · cases h : (run (pathValidCommand baseEnv path)).failed with
    | none => simp [pathValid, h]
    | some m => simp [pathValid, h]
  · intro m h
    simp [pathValid, h]
  · intro h
    simp [pathValid, h]

/-- Witness for the amended C3: a failing mechanism yields the wrapping
error embedding the raw output. -/
theorem pathValid_error_spec_witness :
    pathValid runFail [] "p" =
      (false, some "returned output: oops, error: exit status 1") :=
  (pathValid_error_spec runFail [] "p").2.1 "exit status 1" rfl

/-! ## C5, C8: the tree-structured operations -/

/-- A directory tree is well formed when every recorded entry has all of
its proper ancestors recorded as directories. -/
def wfDirFS (fs : DirFS) : Bool :=
  List.all fs
    (fun e => (properInits e.fst).all (fun q => lookupFS fs q == some Node.dir))

theorem lookupFS_append_some {l₁ l₂ : DirFS} {p : List String} {v : Node}
    (h : lookupFS l₁ p = some v) : lookupFS (l₁ ++ l₂) p = some v := by
  induction l₁ with
  | nil => simp [lookupFS] at h
  | cons e rest ih =>
    obtain ⟨k, w⟩ := e
    by_cases hk : k = p
    · subst hk
      simpa [lookupFS] using h
    · rw [List.cons_append]
      simp only [lookupFS, if_neg hk] at h ⊢
      exact ih h

theorem lookupFS_append_none {l₁ l₂ : DirFS} {p : List String}
    (h : lookupFS l₁ p = none) : lookupFS (l₁ ++ l₂) p = lookupFS l₂ p := by
  induction l₁ with
  | nil => rfl
  | cons e rest ih =>
    obtain ⟨k, w⟩ := e
    by_cases hk : k = p
    · subst hk
      simp [lookupFS] at h
    · rw [List.cons_append]
      simp only [lookupFS, if_neg hk] at h ⊢
      exact ih h

theorem lookupFS_map_dir_of_mem {l : List (List String)} {p : List String}
    (h : p ∈ l) : lookupFS (l.map (fun q => (q, Node.dir))) p = some Node.dir := by
  induction l with
  | nil => cases h
  | cons k rest ih =>
    by_cases hk : k = p
    · subst hk
      simp [lookupFS]
    · rcases List.mem_cons.mp h with hkp | hmem
      · exact absurd hkp.symm hk
      · simp only [List.map_cons, lookupFS, if_neg hk]
        exact ih hmem

theorem lookupFS_map_dir_cases (l : List (List String)) (p : List String) :
    lookupFS (l.map (fun q => (q, Node.dir))) p = none ∨
    lookupFS (l.map (fun q => (q, Node.dir))) p = some Node.dir := by
  induction l with
  | nil => exact Or.inl rfl
  | cons k rest ih =>
    by_cases hk : k = p
    · subst hk
      right
      simp [lookupFS]
    · simpa only [List.map_cons, lookupFS, if_neg hk] using ih

theorem mem_of_lookupFS {fs : DirFS} {p : List String} {v : Node}
    (h : lookupFS fs p = some v) : (p, v) ∈ fs := by
  induction fs with
  | nil => simp [lookupFS] at h
  | cons e rest ih =>
    obtain ⟨k, w⟩ := e
    by_cases hk : k = p
    · subst hk
      have h' : w = v := by simpa [lookupFS] using h
      subst h'
      exact List.mem_cons_self _ _
    · simp only [lookupFS, if_neg hk] at h
      exact List.mem_cons_of_mem _ (ih h)

theorem pathInits_eq (p : List String) : pathInits p = properInits p ++ [p] := by
  induction p with
  | nil => rfl
  | cons c cs ih =>
    simp [pathInits, properInits, ih]

theorem self_mem_pathInits (p : List String) : p ∈ pathInits p := by
  rw [pathInits_eq]
  simp

/-- C8: `Mkdir` is idempotent: when it succeeds it leaves the path and
every ancestor present as directories, a second call on the result
succeeds and returns the identical structure, and a path already present
as a directory is accepted silently with no change at all. -/
theorem Mkdir_idempotent_spec (fs : DirFS) (p : List String) (fs' : DirFS)
    (hwf : wfDirFS fs = true) (h : Mkdir fs p = Except.ok fs') :
    (pathInits p).all (fun q => lookupFS fs' q == some Node.dir) = true ∧
    Mkdir fs' p = Except.ok fs' ∧
    (lookupFS fs p = some Node.dir → fs' = fs) := by
  cases hfsp : lookupFS fs p with
  | some v =>
    cases v with
    | file => simp [Mkdir, hfsp] at h
    | dir =>
      have hfs' : fs' = fs := by
        simp only [Mkdir, hfsp, Except.ok.injEq] at h
        exact h.symm
      refine ⟨?_, ?_, fun _ => hfs'⟩
      · rw [hfs', pathInits_eq, List.all_append, Bool.and_eq_true]
        have hmem : (p, Node.dir) ∈ fs := mem_of_lookupFS hfsp
        have hanc := List.all_eq_true.mp hwf (p, Node.dir) hmem
        exact ⟨hanc, by simp [hfsp]⟩
      · rw [hfs']
        simp [Mkdir, hfsp]
  | none =>
    rw [Mkdir, hfsp] at h
    cases hcond : (pathInits p).all (fun q => !(lookupFS fs q == some Node.file)) with
    | false => simp [hcond] at h
    | true =>
      rw [hcond] at h
      simp only [if_true, Except.ok.injEq] at h
      have hA : ∀ q ∈ pathInits p, lookupFS fs' q = some Node.dir := by
        intro q hq
        rw [← h]
        cases hfsq : lookupFS fs q with
        | none =>
          have hqf : q ∈ (pathInits p).filter (fun q => lookupFS fs q == none) :=
            List.mem_filter.mpr ⟨hq, by simp [hfsq]⟩
          exact lookupFS_append_some (lookupFS_map_dir_of_mem hqf)
        | some v =>
          have hvd : v = Node.dir := by
            have hnf := List.all_eq_true.mp hcond q hq
            rw [hfsq] at hnf
            cases v
            · simp at hnf
            · rfl
          subst hvd
          rcases lookupFS_map_dir_cases
              ((pathInits p).filter (fun q => lookupFS fs q == none)) q with hnd | hnd
          · rw [lookupFS_append_none hnd]
            exact hfsq
          · exact lookupFS_append_some hnd
      refine ⟨?_, ?_, ?_⟩
      · exact List.all_eq_true.mpr fun q hq => by simp [hA q hq]
      · have hp' : lookupFS fs' p = some Node.dir := hA p (self_mem_pathInits p)
        simp [Mkdir, hp']
      · intro hcontra
        exact absurd hcontra (by simp [hfsp])

/-- A fixture: the directory tree produced by `Mkdir [] ["a", "b"]`. -/
def fsW : DirFS := [([], Node.dir), (["a"], Node.dir), (["a", "b"], Node.dir)]

/-- Witness for C8: creating `a/b` in the empty tree and creating it again
both succeed and agree, with every ancestor a directory. -/
theorem Mkdir_idempotent_spec_witness :
    (pathInits ["a", "b"]).all (fun q => lookupFS fsW q == some Node.dir) = true ∧
    Mkdir fsW ["a", "b"] = Except.ok fsW := by
  have h := Mkdir_idempotent_spec [] ["a", "b"] fsW (by decide) (by rfl)
  exact ⟨h.1, h.2.1⟩

theorem isPrefixOf_self (l : List String) : l.isPrefixOf l = true := by
  induction l with
  | nil => rfl
  | cons c cs ih => simp [List.isPrefixOf, ih]

theorem lookupFS_filter_below_none (fs : DirFS) (p : List String) :
    lookupFS (List.filter (fun e => !(p.isPrefixOf e.fst)) fs) p = none := by
  induction fs with
  | nil => rfl
  | cons e rest ih =>
    obtain ⟨k, v⟩ := e
    cases hb : p.isPrefixOf k with
    | true =>
      simpa [List.filter, hb] using ih
    | false =>
      have hk : ¬(k = p) := by
        intro hkp
        subst hkp
        rw [isPrefixOf_self] at hb
        cases hb
      simp only [List.filter, hb, Bool.not_false, lookupFS, if_neg hk]
      exact ih

/-- C5 amended: `Rmdir` with `force=false` fails with "directory not
empty" on a non-empty directory; on a plain file it succeeds, deleting
the file; `Rmdir` with `force=true` always succeeds, recursively deleting
everything at or below the path and leaving the path absent. -/
theorem rmdir_spec (fs : DirFS) (p : List String) :
    (lookupFS fs p = some Node.dir → hasChildFS fs p = true →
      Rmdir fs p false = Except.error "remove: directory not empty") ∧
    (lookupFS fs p = some Node.file →
      Rmdir fs p false = Except.ok (eraseFS fs p)) ∧
    Rmdir fs p true = Except.ok (List.filter (fun e => !(p.isPrefixOf e.fst)) fs) ∧
    lookupFS (List.filter (fun e => !(p.isPrefixOf e.fst)) fs) p = none := by
  refine ⟨?_, ?_, rfl, lookupFS_filter_below_none fs p⟩
  · intro hd hc
    simp [Rmdir, removeFS, hd, hc]
  · intro hf
    simp [Rmdir, removeFS, hf]

/-- A fixture: a single plain file at `f`. -/
def fsFile : DirFS := [(["f"], Node.file)]

/-- A fixture: a non-empty directory `d` containing the file `d/x`. -/
def fsDir : DirFS := [(["d"], Node.dir), (["d", "x"], Node.file)]

/-- C5 as stated is false: `Rmdir` with `force=false` on a plain file
succeeds (deleting the file) instead of failing with an error. -/
theorem rmdir_file_cex :
    Rmdir fsFile ["f"] false = Except.ok [] ∧
    ¬∃ m, Rmdir fsFile ["f"] false = Except.error m := by
  refine ⟨rfl, ?_⟩
  rintro ⟨m, hm⟩
  rw [show Rmdir fsFile ["f"] false = Except.ok [] from rfl] at hm
  cases hm

/-- Witness for the amended C5: on the non-empty directory `d`, non-force
removal fails with "directory not empty" while forced removal succeeds
and leaves the tree empty. -/
theorem rmdir_spec_witness :
    Rmdir fsDir ["d"] false = Except.error "remove: directory not empty" ∧
    Rmdir fsDir ["d"] true = Except.ok [] :=
  ⟨(rmdir_spec fsDir ["d"]).1 (by decide) (by decide),
   (rmdir_spec fsDir ["d"]).2.2.1⟩

end CsiProxy
